import Mathlib

/-!
Verification development for the avient-com-documentation crawler
(src/main.go).  The Go code is shallowly embedded: Go strings are byte
sequences, modelled as lists of natural numbers below 256.  The pieces of
the Go standard library that the program relies on (net/url parsing and
percent-decoding, path.Base, strings helpers) are transcribed from their
Go sources at the byte level; Unicode-aware case mapping is modelled on
the ASCII range only, which is exact for every byte the sanitizer can
keep.  Side effects (HTTP, the file system, process death via log.Fatal)
are modelled by explicit environments and explicit state passing.
-/

deriving instance DecidableEq for Except

/-- Go strings are byte sequences; each entry is a byte value (< 256). -/
abbrev GoString := List Nat

/-- Converts a Lean string literal to its byte-list form (ASCII inputs only). -/
def strToGo (s : String) : GoString := s.data.map Char.toNat

/-- Go: c is an ASCII decimal digit. -/
def isDigitB (c : Nat) : Bool := decide (48 ≤ c) && decide (c ≤ 57)

/-- Go: c is an ASCII uppercase letter. -/
def isUpperB (c : Nat) : Bool := decide (65 ≤ c) && decide (c ≤ 90)

/-- Go: c is an ASCII lowercase letter. -/
def isLowerB (c : Nat) : Bool := decide (97 ≤ c) && decide (c ≤ 122)

/-- Go: c is an ASCII letter. -/
def isAlphaB (c : Nat) : Bool := isUpperB c || isLowerB c

/-- Go net/url ishex: c is an ASCII hex digit. -/
def isHexB (c : Nat) : Bool :=
  isDigitB c || (decide (97 ≤ c) && decide (c ≤ 102)) || (decide (65 ≤ c) && decide (c ≤ 70))

/-- Go net/url unhex: value of a hex digit. -/
def unhexB (c : Nat) : Nat :=
  if isDigitB c then c - 48
  else if decide (97 ≤ c) && decide (c ≤ 102) then c - 97 + 10
  else c - 65 + 10

/-- ASCII fragment of Go strings.ToLower, applied bytewise. -/
def toLowerByte (c : Nat) : Nat := if isUpperB c then c + 32 else c

/-- Go strings.HasPrefix at the byte level. -/
def goStartsWith : GoString → GoString → Bool
  | _, [] => true
  | [], _ :: _ => false
  | c :: s, p :: ps => c == p && goStartsWith s ps

/-- Go strings.HasSuffix at the byte level. -/
def goEndsWith (s suffix : GoString) : Bool := goStartsWith s.reverse suffix.reverse

/-- Go strings.Contains at the byte level. -/
def goContains : GoString → GoString → Bool
  | [], sub => goStartsWith [] sub
  | c :: t, sub => goStartsWith (c :: t) sub || goContains t sub

/-- Go net/url split(s, sep, cutc): cut s at the first occurrence of byte sep. -/
def splitGo : GoString → Nat → Bool → GoString × GoString
  | [], _, _ => ([], [])
  | c :: t, sep, cutc =>
    if c == sep then ([], if cutc then t else c :: t)
    else
      let r := splitGo t sep cutc
      (c :: r.1, r.2)

/-- Index of the last occurrence of byte b in s (Go strings.LastIndex with a
one-byte needle). -/
def lastIndexByte : GoString → Nat → Option Nat
  | [], _ => none
  | c :: t, b =>
    match lastIndexByte t b with
    | some i => some (i + 1)
    | none => if c == b then some 0 else none

/-- Index of the first occurrence of sub in s (Go strings.Index). -/
def indexOfSub : GoString → GoString → Option Nat
  | [], sub => if sub.isEmpty then some 0 else none
  | c :: t, sub =>
    if goStartsWith (c :: t) sub then some 0
    else (indexOfSub t sub).map (· + 1)

/-- Go net/url encoding modes, as fed to unescape. -/
inductive GoEncoding
  | pathMode
  | host
  | zone
  | userPassword
  | queryComponent
  | fragmentMode
deriving DecidableEq

/-- Go net/url shouldEscape restricted to the encodeHost/encodeZone modes,
which are the only modes unescape consults it for.  False means the byte may
appear unescaped in a host. -/
def shouldEscapeHost (c : Nat) : Bool :=
  if isAlphaB c || isDigitB c then false
  else if [33, 36, 38, 39, 40, 41, 42, 43, 44, 59, 61, 58, 91, 93, 60, 62, 34].contains c then
    false
  else if [45, 95, 46, 126].contains c then false
  else true

/-- Go net/url unescape(s, mode).  Percent escapes must be two hex digits; in
host mode escaped bytes below 0x80 other than %25 are rejected, and non-ASCII
checks follow the Go source; a plus becomes a space only in query mode. -/
def unescapeGo : GoString → GoEncoding → Except Unit GoString
  | [], _ => .ok []
  | c :: rest, mode =>
    if c == 37 then
      match rest with
      | a :: b :: rest2 =>
        if isHexB a && isHexB b then
          if mode == .host && decide (unhexB a < 8) && !(a == 50 && b == 53) then .error ()
          else if mode == .zone
              && !(a == 50 && b == 53)
              && !(unhexB a * 16 + unhexB b == 32)
              && shouldEscapeHost (unhexB a * 16 + unhexB b) then .error ()
          else
            match unescapeGo rest2 mode with
            | .error e => .error e
            | .ok t => .ok ((unhexB a * 16 + unhexB b) :: t)
        else .error ()
      | _ => .error ()
    else if c == 43 then
      match unescapeGo rest mode with
      | .error e => .error e
      | .ok t => .ok ((if mode == .queryComponent then 32 else 43) :: t)
    else
      if (mode == .host || mode == .zone) && decide (c < 128) && shouldEscapeHost c then
        .error ()
      else
        match unescapeGo rest mode with
        | .error e => .error e
        | .ok t => .ok (c :: t)

/-- Go url.QueryUnescape. -/
def queryUnescapeGo (s : GoString) : Except Unit GoString := unescapeGo s .queryComponent

/-- Loop body of Go net/url getScheme; orig is the whole input, rem the
unread part, acc the scheme bytes read so far. -/
def getSchemeAux (orig : GoString) : GoString → GoString → Except Unit (GoString × GoString)
  | [], _ => .ok ([], orig)
  | c :: rest, acc =>
    if isAlphaB c then getSchemeAux orig rest (acc ++ [c])
    else if isDigitB c || c == 43 || c == 45 || c == 46 then
      if acc.isEmpty then .ok ([], orig) else getSchemeAux orig rest (acc ++ [c])
    else if c == 58 then
      if acc.isEmpty then .error () else .ok (acc, rest)
    else .ok ([], orig)

/-- Go net/url getScheme: split a leading scheme off a raw URL. -/
def getSchemeGo (raw : GoString) : Except Unit (GoString × GoString) := getSchemeAux raw raw []

/-- Go net/url validOptionalPort. -/
def validOptionalPort (p : GoString) : Bool :=
  match p with
  | [] => true
  | c :: rest => c == 58 && rest.all isDigitB

/-- Go net/url validUserinfo. -/
def validUserinfo (s : GoString) : Bool :=
  s.all fun c =>
    isAlphaB c || isDigitB c
      || [45, 46, 95, 58, 126, 33, 36, 38, 39, 40, 41, 42, 43, 44, 59, 61, 37, 64].contains c

/-- Go net/url parseHost: bracketed hosts need a closing bracket and a valid
optional port, possibly with a %25 zone; plain hosts need a valid optional
port; all are unescaped in host mode. -/
def parseHost (host : GoString) : Except Unit GoString :=
  if goStartsWith host [91] then
    match lastIndexByte host 93 with
    | none => .error ()
    | some i =>
      if !validOptionalPort (host.drop (i + 1)) then .error ()
      else
        match indexOfSub (host.take i) [37, 50, 53] with
        | some zone =>
          match unescapeGo (host.take zone) .host with
          | .error e => .error e
          | .ok h1 =>
            match unescapeGo ((host.take i).drop zone) .zone with
            | .error e => .error e
            | .ok h2 =>
              match unescapeGo (host.drop i) .host with
              | .error e => .error e
              | .ok h3 => .ok (h1 ++ h2 ++ h3)
        | none => unescapeGo host .host
  else
    match lastIndexByte host 58 with
    | some i =>
      if !validOptionalPort (host.drop i) then .error () else unescapeGo host .host
    | none => unescapeGo host .host

/-- Go net/url parseAuthority; the user info is validated and unescaped for
its error effects, and only the host is kept. -/
def parseAuthority (authority : GoString) : Except Unit GoString :=
  match lastIndexByte authority 64 with
  | none => parseHost authority
  | some i =>
    match parseHost (authority.drop (i + 1)) with
    | .error e => .error e
    | .ok host =>
      let userinfo := authority.take i
      if !validUserinfo userinfo then .error ()
      else if !goContains userinfo [58] then
        match unescapeGo userinfo .userPassword with
        | .error e => .error e
        | .ok _ => .ok host
      else
        let up := splitGo userinfo 58 true
        match unescapeGo up.1 .userPassword with
        | .error e => .error e
        | .ok _ =>
          match unescapeGo up.2 .userPassword with
          | .error e => .error e
          | .ok _ => .ok host

/-- Result of Go net/url parsing: the URL structure fields the program can
observe. -/
structure GoURL where
  scheme : GoString := []
  opq : GoString := []
  host : GoString := []
  path : GoString := []
  rawQuery : GoString := []
  forceQuery : Bool := false
  omitHost : Bool := false
  fragment : GoString := []
deriving DecidableEq, Repr

/-- Tail of Go net/url parse after the early returns: authority handling and
setPath. -/
def parseGoRest (scheme rest rawQuery : GoString) (forceQuery viaRequest : Bool) :
    Except Unit GoURL :=
  if (!scheme.isEmpty || (!viaRequest && !goStartsWith rest [47, 47, 47]))
      && goStartsWith rest [47, 47] then
    let ar := splitGo (rest.drop 2) 47 false
    match parseAuthority ar.1 with
    | .error e => .error e
    | .ok host =>
      match unescapeGo ar.2 .pathMode with
      | .error e => .error e
      | .ok path =>
        .ok { scheme := scheme, host := host, path := path, rawQuery := rawQuery,
              forceQuery := forceQuery }
  else
    let omitH := !scheme.isEmpty && goStartsWith rest [47]
    match unescapeGo rest .pathMode with
    | .error e => .error e
    | .ok path =>
      .ok { scheme := scheme, path := path, rawQuery := rawQuery,
            forceQuery := forceQuery, omitHost := omitH }

/-- Go net/url parse(rawURL, viaRequest): control-byte check, the "*" form,
scheme split, query split, the rootless/opaque and colon-in-first-segment
early returns, then authority and path. -/
def parseGo (rawURL : GoString) (viaRequest : Bool) : Except Unit GoURL :=
  if rawURL.any (fun c => decide (c < 32) || c == 127) then .error ()
  else if rawURL.isEmpty && viaRequest then .error ()
  else if rawURL == [42] then .ok { path := [42] }
  else
    match getSchemeGo rawURL with
    | .error e => .error e
    | .ok sr =>
      let scheme := sr.1.map toLowerByte
      let rest0 := sr.2
      let rq :=
        if goEndsWith rest0 [63] && !goContains (rest0.take (rest0.length - 1)) [63] then
          (rest0.take (rest0.length - 1), ([] : GoString), true)
        else
          let s := splitGo rest0 63 true
          (s.1, s.2, false)
      let rest := rq.1
      if !goStartsWith rest [47] then
        if !scheme.isEmpty then
          .ok { scheme := scheme, opq := rest, rawQuery := rq.2.1, forceQuery := rq.2.2 }
        else if viaRequest then .error ()
        else
          let segment := (splitGo rest 47 true).1
          if goContains segment [58] then .error ()
          else parseGoRest scheme rest rq.2.1 rq.2.2 viaRequest
      else parseGoRest scheme rest rq.2.1 rq.2.2 viaRequest

/-- Go url.Parse: split a fragment off, parse the rest, unescape the
fragment. -/
def urlParseGo (rawURL : GoString) : Except Unit GoURL :=
  let uf := splitGo rawURL 35 true
  match parseGo uf.1 false with
  | .error e => .error e
  | .ok url =>
    if uf.2.isEmpty then .ok url
    else
      match unescapeGo uf.2 .fragmentMode with
      | .error e => .error e
      | .ok f => .ok { url with fragment := f }

/-- Go url.ParseRequestURI. -/
def parseRequestURIGo (rawURL : GoString) : Except Unit GoURL := parseGo rawURL true

/-- main.go isUrlValid: url.ParseRequestURI succeeds. -/
def isUrlValid (uri : GoString) : Bool :=
  match parseRequestURIGo uri with
  | .ok _ => true
  | .error _ => false

/-- Drop trailing slash bytes (the stripping loop of Go path.Base). -/
def trimTrailingSlashes (p : GoString) : GoString := (p.reverse.dropWhile (· == 47)).reverse

/-- Go path.Base. -/
def pathBase (p : GoString) : GoString :=
  if p.isEmpty then [46]
  else
    let p1 := trimTrailingSlashes p
    let p2 :=
      match lastIndexByte p1 47 with
      | some i => p1.drop (i + 1)
      | none => p1
    if p2.isEmpty then [47] else p2

/-- Go filepath.Join(dir, name), for a directory argument with an optional
trailing slash and a slash-free name as produced by the sanitizer (Clean is
not modelled beyond collapsing the joining slash). -/
def filepathJoin (dir name : GoString) : GoString := trimTrailingSlashes dir ++ [47] ++ name

/-- main.go line 167: fileName, err = url.QueryUnescape(fileName).  The Go
multiple assignment stores QueryUnescape's first return value even on error,
and on error that value is the empty string. -/
def decodedName (fileName : GoString) : GoString :=
  match queryUnescapeGo fileName with
  | .error _ => []
  | .ok d => d

/-- Bytes kept by the regular expression [^\w\-.] of main.go line 172: word
bytes, dash and dot survive; every other byte is replaced. -/
def keepByte (c : Nat) : Bool := isAlphaB c || isDigitB c || c == 95 || c == 45 || c == 46

/-- main.go line 173: regexFinder.ReplaceAllString(fileName, "_"). -/
def replaceInvalid (s : GoString) : GoString := s.map fun c => if keepByte c then c else 95

/-- main.go line 175: strings.Trim(safeFileName, "_"). -/
def trimUnderscore (s : GoString) : GoString :=
  ((s.dropWhile (· == 95)).reverse.dropWhile (· == 95)).reverse

/-- Lines 165-181 of main.go: the processing applied to the path of a
successfully parsed URL. -/
def sanitizeCore (urlPath : GoString) : GoString :=
  let fileName := pathBase urlPath
  let fileName2 := decodedName fileName
  let safeFileName := trimUnderscore (replaceInvalid fileName2)
  if safeFileName.isEmpty then strToGo "downloaded_file"
  else safeFileName.map toLowerByte

/-- main.go sanitizeFileNameFromURL. -/
def sanitizeFileNameFromURL (rawURL : GoString) : GoString :=
  match urlParseGo rawURL with
  | .error _ => strToGo "invalid_filename"
  | .ok parsedURL => sanitizeCore parsedURL.path

/-- Modelled from the spec (claim C3 wording): a sanitizer variant in which a
failed percent-decoding of the last path segment is non-fatal and the code
proceeds with the undecoded segment.  The program itself does not contain
this behaviour; this definition exists only to compare the spec's words with
sanitizeFileNameFromURL. -/
def sanitizeSpecUndecoded (rawURL : GoString) : GoString :=
  match urlParseGo rawURL with
  | .error _ => strToGo "invalid_filename"
  | .ok parsedURL =>
    let fileName := pathBase parsedURL.path
    let fileName2 :=
      match queryUnescapeGo fileName with
      | .error _ => fileName
      | .ok d => d
    let safeFileName := trimUnderscore (replaceInvalid fileName2)
    if safeFileName.isEmpty then strToGo "downloaded_file"
    else safeFileName.map toLowerByte

/-- Predicate of main.go lines 200-206: the href percent-decodes and its
lowercased form ends in ".pdf". -/
def isPdfHref (href : GoString) : Bool :=
  match queryUnescapeGo href with
  | .error _ => false
  | .ok decodedHref => goEndsWith (decodedHref.map toLowerByte) (strToGo ".pdf")

/-- main.go parseHTML, over the href attributes that goquery's Find("a[href]")
yields in document order (HTML tokenization itself is outside the model). -/
def parseHTML (anchors : List GoString) : List GoString :=
  anchors.foldl
    (fun pdfLinks href =>
      match queryUnescapeGo href with
      | .error _ => pdfLinks
      | .ok decodedHref =>
        if goEndsWith (decodedHref.map toLowerByte) (strToGo ".pdf") then pdfLinks ++ [href]
        else pdfLinks)
    []

/-- Loop of main.go removeDuplicatesFromSlice; check is the key set of the
seen map, acc the slice built so far. -/
def removeDupLoop : List GoString → List GoString → List GoString → List GoString
  | [], _, acc => acc
  | content :: rest, check, acc =>
    if content ∈ check then removeDupLoop rest check acc
    else removeDupLoop rest (content :: check) (acc ++ [content])

/-- main.go removeDuplicatesFromSlice. -/
def removeDuplicatesFromSlice (slice : List GoString) : List GoString :=
  removeDupLoop slice [] []

/-- Proof-side recursive form of the dedup loop, without the accumulator. -/
def dedupF : List GoString → List GoString → List GoString
  | [], _ => []
  | c :: rest, seen =>
    if c ∈ seen then dedupF rest seen else c :: dedupF rest (c :: seen)

/-- An HTTP response as the program inspects it: status, Content-Type header
and the body bytes. -/
structure HttpResponse where
  statusCode : Nat
  contentType : GoString
  body : GoString
deriving DecidableEq, Repr

/-- Outcome of client.Get: a transport error or a response. -/
inductive GetResult
  | failure
  | success (resp : HttpResponse)
deriving DecidableEq, Repr

/-- The output directory as a list of files: path to contents. -/
abbrev FileSystem := List (GoString × GoString)

/-- main.go fileExists, over the modelled file list. -/
def fileExists (fs : FileSystem) (p : GoString) : Bool := (fs.map Prod.fst).contains p

/-- Effect of os.Create followed by writing content: the path now holds
content (os.Create truncates, so the entry exists from creation on). -/
def fsWrite (fs : FileSystem) (p content : GoString) : FileSystem := (p, content) :: fs

/-- Environment of one download task: the network, and whether the fallible
local steps (io.Copy into the buffer, os.Create, buf.WriteTo) fail; on a
failing WriteTo, writeErrKept bytes of the buffer reached the file. -/
structure DownloadEnv where
  net : GoString → GetResult
  readFails : Bool
  createFails : Bool
  writeFails : Bool
  writeErrKept : Nat

/-- main.go downloadPDF: returns the task's boolean result, the output
directory afterwards, and the list of network requests it issued. -/
def downloadPDF (env : DownloadEnv) (fs : FileSystem) (finalURL outputDir : GoString) :
    Bool × FileSystem × List GoString :=
  let filename := sanitizeFileNameFromURL finalURL
  let filePath := filepathJoin outputDir filename
  if fileExists fs filePath then (false, fs, [])
  else
    match env.net finalURL with
    | .failure => (false, fs, [finalURL])
    | .success resp =>
      if !(resp.statusCode == 200) then (false, fs, [finalURL])
      else if !goContains resp.contentType (strToGo "application/pdf") then
        (false, fs, [finalURL])
      else if env.readFails then (false, fs, [finalURL])
      else if resp.body.length == 0 then (false, fs, [finalURL])
      else if env.createFails then (false, fs, [finalURL])
      else if env.writeFails then
        (false, fsWrite fs filePath (resp.body.take env.writeErrKept), [finalURL])
      else (true, fsWrite fs filePath resp.body, [finalURL])

/-- The fixed site origin of main.go lines 53-54. -/
def origin : GoString := strToGo "https://www.avient.com"

/-- The output directory of main.go line 40. -/
def outputDirGo : GoString := strToGo "PDFs/"

/-- One iteration of the download loop of main.go lines 50-62 over the state
(files, launched URLs, iterated links).  The source declares var fullURL and
assigns it only when the link does not start with the origin; a link that
already starts with the origin leaves fullURL at its zero value "". -/
def downloadStep (denv : DownloadEnv) (st : FileSystem × List GoString × List GoString)
    (url : GoString) : FileSystem × List GoString × List GoString :=
  let fullURL := if !goStartsWith url origin then origin ++ url else []
  if !isUrlValid fullURL then (st.1, st.2.1, st.2.2 ++ [url])
  else
    let r := downloadPDF denv st.1 fullURL outputDirGo
    (r.2.1, st.2.1 ++ [fullURL], st.2.2 ++ [url])

/-- The download loop of main.go lines 50-62 over a link list. -/
def downloadStage (denv : DownloadEnv) (fs0 : FileSystem) (links : List GoString) :
    FileSystem × List GoString × List GoString :=
  links.foldl (downloadStep denv) (fs0, [], [])

/-- Environment of a whole run: the page fetches (none is a transport error,
on which getDataFromURL calls log.Fatalln), the anchors goquery extracts from
given HTML, the download environment, and the state of avient.com.html. -/
structure RunEnv where
  pageFetch : Nat → Option GoString
  anchors : GoString → List GoString
  denv : DownloadEnv
  htmlExists : Bool
  localHTML : GoString

/-- One page-fetch task (main.go getDataFromURL feeding appendAndWriteToFile):
a transport error kills the process, success appends the body and a
newline. -/
def fetchStep (env : RunEnv) (acc : Option GoString) (n : Nat) : Option GoString :=
  match acc with
  | none => none
  | some s =>
    match env.pageFetch n with
    | none => none
    | some body => some (s ++ body ++ [10])

/-- The crawl loop of main.go lines 27-33 over pages 0..5000; none means the
process died before the download stage. -/
def fetchStage (env : RunEnv) : Option GoString :=
  (List.range 5001).foldl (fetchStep env) (some [])

/-- Observable outcome of a run: whether the process died during the crawl,
the output directory, the launched download URLs and the iterated links in
order. -/
structure RunResult where
  fatal : Bool
  pdfs : FileSystem
  launched : List GoString
  attempted : List GoString
deriving DecidableEq, Repr

/-- main.go main, sequentially: crawl (or reuse avient.com.html), extract,
dedup, reverse, then the download loop. -/
def runMain (env : RunEnv) (fs0 : FileSystem) : RunResult :=
  match (if env.htmlExists then some env.localHTML else fetchStage env) with
  | none => ⟨true, fs0, [], []⟩
  | some html =>
    let fullURLList := removeDuplicatesFromSlice (parseHTML (env.anchors html))
    let r := downloadStage env.denv fs0 fullURLList.reverse
    ⟨false, r.1, r.2.1, r.2.2⟩

/-- Word bytes of the regular expression class \w. -/
def isWordCharB (c : Nat) : Bool := isAlphaB c || isDigitB c || c == 95

/-- Bytes the spec allows in a sanitized name: [a-z0-9_.-]. -/
def classByte (c : Nat) : Bool := isLowerB c || isDigitB c || c == 95 || c == 46 || c == 45

/-- A download environment with no reachable network and no local failures,
for runs that must not issue requests. -/
def denvNoNet : DownloadEnv := ⟨fun _ => .failure, false, false, false, 0⟩

/-- An extracted link that is already absolute under the site origin. -/
def cexAbsoluteLink : GoString := strToGo "https://www.avient.com/doc/a.pdf"

/-- A concrete PDF URL used by several witnesses. -/
def cUrl : GoString := strToGo "https://www.avient.com/x/q.pdf"

/-- A response that passes every check of downloadPDF. -/
def cGoodResp : HttpResponse := ⟨200, strToGo "application/pdf", [1, 2, 3]⟩

/-- Environment in which os.Create fails. -/
def cEnvCreateFail : DownloadEnv := ⟨fun _ => .success cGoodResp, false, true, false, 0⟩

/-- Environment in which buf.WriteTo fails after os.Create succeeded. -/
def cEnvWriteFail : DownloadEnv := ⟨fun _ => .success cGoodResp, false, false, true, 0⟩

/-- Environment in which the download succeeds end to end. -/
def cEnvOk : DownloadEnv := ⟨fun _ => .success cGoodResp, false, false, false, 0⟩

/-- Environment returning HTTP 200, PDF content type and an empty body. -/
def cEnvEmptyBody : DownloadEnv :=
  ⟨fun _ => .success ⟨200, strToGo "application/pdf", []⟩, false, false, false, 0⟩

/-- A run environment whose first page fetch dies of a transport error. -/
def cEnvFatalRun : RunEnv :=
  ⟨fun _ => none, fun _ => [], denvNoNet, false, []⟩

/-- A run environment with a prebuilt avient.com.html holding two PDF links. -/
def cEnvTwoLinks : RunEnv :=
  ⟨fun _ => none, fun _ => [strToGo "/docs/a.pdf", strToGo "/docs/b.pdf"], denvNoNet, true, []⟩

/-- A file list holding exactly the target file of cUrl. -/
def cFsHasFile : FileSystem := [(filepathJoin outputDirGo (sanitizeFileNameFromURL cUrl), [1])]

theorem keep_toLower_class (c : Nat) (h : keepByte c = true) : classByte (toLowerByte c) = true := by
  simp only [keepByte, isAlphaB, isUpperB, isLowerB, isDigitB, Bool.or_eq_true, Bool.and_eq_true,
    decide_eq_true_eq, beq_iff_eq] at h
  simp only [classByte, toLowerByte, isUpperB, isLowerB, isDigitB, Bool.and_eq_true,
    Bool.or_eq_true, decide_eq_true_eq, beq_iff_eq]
  split
  · omega
  · omega

theorem mem_replaceInvalid (d : GoString) (c : Nat) (h : c ∈ replaceInvalid d) :
    keepByte c = true := by
  simp only [replaceInvalid, List.mem_map] at h
  obtain ⟨a, -, rfl⟩ := h
  split
  · assumption
  · decide

theorem mem_dropWhile (p : Nat → Bool) (l : List Nat) (c : Nat) (h : c ∈ l.dropWhile p) :
    c ∈ l := by
  induction l with
  | nil => simp at h
  | cons a t ih =>
    rw [List.dropWhile_cons] at h
    split at h
    · exact List.mem_cons_of_mem a (ih h)
    · exact h

theorem mem_trimUnderscore (l : List Nat) (c : Nat) (h : c ∈ trimUnderscore l) : c ∈ l := by
  simp only [trimUnderscore, List.mem_reverse] at h
  have h2 := mem_dropWhile _ _ _ h
  rw [List.mem_reverse] at h2
  exact mem_dropWhile _ _ _ h2

theorem sanitizeCore_spec (p : GoString) :
    sanitizeCore p ≠ [] ∧ (sanitizeCore p).all classByte = true := by
  have hd : sanitizeCore p =
      (if (trimUnderscore (replaceInvalid (decodedName (pathBase p)))).isEmpty
       then strToGo "downloaded_file"
       else (trimUnderscore (replaceInvalid (decodedName (pathBase p)))).map toLowerByte) := rfl
  rw [hd]
  split
  · exact ⟨by decide, by decide⟩
  · rename_i hne
    constructor
    · simp only [ne_eq, List.map_eq_nil_iff]
      intro hnil
      rw [hnil] at hne
      exact hne rfl
    · rw [List.all_eq_true]
      intro c hc
      rw [List.mem_map] at hc
      obtain ⟨a, ha, rfl⟩ := hc
      exact keep_toLower_class a (mem_replaceInvalid _ a (mem_trimUnderscore _ a ha))

/-- C8: for a URL whose last path segment holds a word character the sanitizer
output is non-empty, lowercase and drawn from [a-z0-9_.-]; an unparseable
string yields invalid_filename; a segment whose replaced, trimmed form is
empty yields downloaded_file.  Amended: a URL with an empty path yields ".",
because path.Base of the empty path is ".", not the downloaded_file
fallback. -/
theorem claim_C8_sanitizer_amended :
    (∀ (raw : GoString) (u : GoURL), urlParseGo raw = .ok u →
        (pathBase u.path).any isWordCharB = true →
        sanitizeFileNameFromURL raw ≠ [] ∧
          (sanitizeFileNameFromURL raw).all classByte = true) ∧
    (∀ raw : GoString, urlParseGo raw = .error () →
        sanitizeFileNameFromURL raw = strToGo "invalid_filename") ∧
    (∀ (raw : GoString) (u : GoURL), urlParseGo raw = .ok u →
        trimUnderscore (replaceInvalid (decodedName (pathBase u.path))) = [] →
        sanitizeFileNameFromURL raw = strToGo "downloaded_file") ∧
    sanitizeFileNameFromURL (strToGo "https://www.avient.com") = strToGo "." := by
  refine ⟨?_, ?_, ?_, by decide⟩
  · intro raw u hp _
    have hs : sanitizeFileNameFromURL raw = sanitizeCore u.path := by
      unfold sanitizeFileNameFromURL
      rw [hp]
    rw [hs]
    exact sanitizeCore_spec u.path
  · intro raw hp
    unfold sanitizeFileNameFromURL
    rw [hp]
  · intro raw u hp h0
    have hs : sanitizeFileNameFromURL raw = sanitizeCore u.path := by
      unfold sanitizeFileNameFromURL
      rw [hp]
    rw [hs]
    show (if (trimUnderscore (replaceInvalid (decodedName (pathBase u.path)))).isEmpty
          then strToGo "downloaded_file"
          else (trimUnderscore (replaceInvalid (decodedName (pathBase u.path)))).map toLowerByte)
        = strToGo "downloaded_file"
    rw [h0]
    rfl

/-- C8 witness: concrete instances of the three quantified parts. -/
theorem claim_C8_sanitizer_amended_witness :
    (sanitizeFileNameFromURL (strToGo "https://www.avient.com/ok/Name-1.PDF") ≠ [] ∧
      (sanitizeFileNameFromURL (strToGo "https://www.avient.com/ok/Name-1.PDF")).all classByte
        = true) ∧
    sanitizeFileNameFromURL (strToGo ":") = strToGo "invalid_filename" ∧
    sanitizeFileNameFromURL (strToGo "https://x.com/%21%21") = strToGo "downloaded_file" := by
  refine ⟨claim_C8_sanitizer_amended.1 _
      { scheme := strToGo "https", host := strToGo "www.avient.com",
        path := strToGo "/ok/Name-1.PDF" } (by decide) (by decide),
    claim_C8_sanitizer_amended.2.1 _ (by decide),
    claim_C8_sanitizer_amended.2.2.1 _
      { scheme := strToGo "https", host := strToGo "x.com", path := strToGo "/!!" }
      (by decide) (by decide)⟩

/-- C8 counterexample: the empty-path URL parses with an empty path, and its
sanitized name is ".", not "downloaded_file" as the claim states. -/
theorem claim_C8_counterexample :
    urlParseGo (strToGo "https://www.avient.com")
      = .ok { scheme := strToGo "https", host := strToGo "www.avient.com" } ∧
    sanitizeFileNameFromURL (strToGo "https://www.avient.com") = strToGo "." ∧
    strToGo "." ≠ strToGo "downloaded_file" := by decide

/-- C3 counterexample: for a URL whose decoded last segment fails a second
percent-decoding, the sanitizer returns the downloaded_file fallback, while
the name derived from the undecoded segment, as the claim describes, would be
"a_zzb.pdf". -/
theorem claim_C3_counterexample :
    queryUnescapeGo (pathBase (strToGo "/a%zzb.pdf")) = .error () ∧
    sanitizeFileNameFromURL (strToGo "https://www.avient.com/a%25zzb.pdf")
      = strToGo "downloaded_file" ∧
    sanitizeSpecUndecoded (strToGo "https://www.avient.com/a%25zzb.pdf")
      = strToGo "a_zzb.pdf" ∧
    sanitizeFileNameFromURL (strToGo "https://www.avient.com/a%25zzb.pdf")
      ≠ sanitizeSpecUndecoded (strToGo "https://www.avient.com/a%25zzb.pdf") := by decide

/-- C3 amended: decoding failure is non-fatal, but the multiple assignment
stores QueryUnescape's empty first return value, so the sanitizer proceeds
with the empty string and returns the downloaded_file fallback, not a name
derived from the undecoded segment. -/
theorem claim_C3_decode_failure_amended :
    ∀ (raw : GoString) (u : GoURL), urlParseGo raw = .ok u →
      queryUnescapeGo (pathBase u.path) = .error () →
      sanitizeFileNameFromURL raw = strToGo "downloaded_file" := by
  intro raw u hp hq
  have hs : sanitizeFileNameFromURL raw = sanitizeCore u.path := by
    unfold sanitizeFileNameFromURL
    rw [hp]
  rw [hs]
  have hd : decodedName (pathBase u.path) = [] := by
    unfold decodedName
    rw [hq]
  show (if (trimUnderscore (replaceInvalid (decodedName (pathBase u.path)))).isEmpty
        then strToGo "downloaded_file"
        else (trimUnderscore (replaceInvalid (decodedName (pathBase u.path)))).map toLowerByte)
      = strToGo "downloaded_file"
  rw [hd]
  rfl

/-- C3 witness: the amended statement at the concrete counterexample URL. -/
theorem claim_C3_decode_failure_amended_witness :
    sanitizeFileNameFromURL (strToGo "https://www.avient.com/a%25zzb.pdf")
      = strToGo "downloaded_file" :=
  claim_C3_decode_failure_amended _
    { scheme := strToGo "https", host := strToGo "www.avient.com",
      path := strToGo "/a%zzb.pdf" } (by decide) (by decide)

/-- C1: the claim fails on the code.  A deduplicated link that already starts
with the site origin is itself a well-formed request URI, yet the loop leaves
the declared fullURL variable at its zero value "" (the assignment only
happens in the not-already-absolute branch), the empty string fails
url.ParseRequestURI, and the link is skipped: no download task is launched
for it. -/
theorem claim_C1_absolute_link_dropped :
    goStartsWith cexAbsoluteLink origin = true ∧
    isUrlValid cexAbsoluteLink = true ∧
    isUrlValid ([] : GoString) = false ∧
    downloadStage denvNoNet [] [cexAbsoluteLink] = ([], [], [cexAbsoluteLink]) := by decide

/-- C5: a download task whose target file already exists returns "not
downloaded", changes nothing, and issues no network request. -/
theorem claim_C5_skip_if_exists :
    ∀ (env : DownloadEnv) (fs : FileSystem) (url dir : GoString),
      fileExists fs (filepathJoin dir (sanitizeFileNameFromURL url)) = true →
      downloadPDF env fs url dir = (false, fs, []) := by
  intro env fs url dir h
  simp [downloadPDF, h]

/-- C5 witness: the skip at a concrete URL and a file list already holding
its target file. -/
theorem claim_C5_skip_if_exists_witness :
    downloadPDF cEnvOk cFsHasFile cUrl outputDirGo = (false, cFsHasFile, []) :=
  claim_C5_skip_if_exists cEnvOk cFsHasFile cUrl outputDirGo (by decide)

/-- C6: a response with status 200, a PDF content type and an empty body
makes the task fail and create no file. -/
theorem claim_C6_zero_byte_guard :
    ∀ (env : DownloadEnv) (fs : FileSystem) (url dir : GoString) (resp : HttpResponse),
      env.net url = .success resp → resp.statusCode = 200 →
      goContains resp.contentType (strToGo "application/pdf") = true →
      resp.body = [] →
      (downloadPDF env fs url dir).1 = false ∧ (downloadPDF env fs url dir).2.1 = fs := by
  intro env fs url dir resp hnet hst hct hbody
  by_cases hex : fileExists fs (filepathJoin dir (sanitizeFileNameFromURL url)) = true
  · constructor <;> simp [downloadPDF, hex]
  · cases hread : env.readFails
    · constructor <;> simp [downloadPDF, hex, hnet, hst, hct, hbody, hread]
    · constructor <;> simp [downloadPDF, hex, hnet, hread]

/-- C6 witness: the guard at a concrete URL and environment. -/
theorem claim_C6_zero_byte_guard_witness :
    (downloadPDF cEnvEmptyBody [] cUrl outputDirGo).1 = false ∧
    (downloadPDF cEnvEmptyBody [] cUrl outputDirGo).2.1 = [] :=
  claim_C6_zero_byte_guard cEnvEmptyBody [] cUrl outputDirGo
    ⟨200, strToGo "application/pdf", []⟩ rfl rfl (by decide) rfl

/-- C2 counterexample: with os.Create succeeding and buf.WriteTo failing, the
task returns failure, yet the file entry created by os.Create remains in the
output directory, against the claim that no entry remains after a write
failure. -/
theorem claim_C2_counterexample :
    (downloadPDF cEnvWriteFail [] cUrl outputDirGo).1 = false ∧
    fileExists (downloadPDF cEnvWriteFail [] cUrl outputDirGo).2.1
      (filepathJoin outputDirGo (sanitizeFileNameFromURL cUrl)) = true := by decide

/-- C2 amended: a creation failure leaves no entry behind; a write failure
still returns failure but the file created by os.Create remains (the model
keeps the prefix of the buffer that reached it); a task that returns success
wrote the complete, non-empty verified body, so presence implies completeness
only for files whose write did not fail. -/
theorem claim_C2_no_entry_amended :
    ∀ (env : DownloadEnv) (fs : FileSystem) (url dir : GoString),
      (env.createFails = true →
        (downloadPDF env fs url dir).1 = false ∧ (downloadPDF env fs url dir).2.1 = fs) ∧
      (env.writeFails = true → (downloadPDF env fs url dir).1 = false) ∧
      ((downloadPDF env fs url dir).1 = true →
        ∃ resp, env.net url = .success resp ∧ resp.statusCode = 200 ∧
          goContains resp.contentType (strToGo "application/pdf") = true ∧
          resp.body ≠ [] ∧
          (downloadPDF env fs url dir).2.1 =
            fsWrite fs (filepathJoin dir (sanitizeFileNameFromURL url)) resp.body) := by
  intro env fs url dir
  by_cases hex : fileExists fs (filepathJoin dir (sanitizeFileNameFromURL url)) = true
  · refine ⟨fun _ => ?_, fun _ => ?_, fun ht => ?_⟩
    · constructor <;> simp [downloadPDF, hex]
    · simp [downloadPDF, hex]
    · simp [downloadPDF, hex] at ht
  · cases hnet : env.net url with
    | failure =>
      refine ⟨fun _ => ?_, fun _ => ?_, fun ht => ?_⟩
      · constructor <;> simp [downloadPDF, hex, hnet]
      · simp [downloadPDF, hex, hnet]
      · simp [downloadPDF, hex, hnet] at ht
    | success resp =>
      cases hst : (resp.statusCode == 200) with
      | false =>
        refine ⟨fun _ => ?_, fun _ => ?_, fun ht => ?_⟩
        · constructor <;> simp [downloadPDF, hex, hnet, hst]
        · simp [downloadPDF, hex, hnet, hst]
        · simp [downloadPDF, hex, hnet, hst] at ht
      | true =>
        cases hct : goContains resp.contentType (strToGo "application/pdf") with
        | false =>
          refine ⟨fun _ => ?_, fun _ => ?_, fun ht => ?_⟩
          · constructor <;> simp [downloadPDF, hex, hnet, hst, hct]
          · simp [downloadPDF, hex, hnet, hst, hct]
          · simp [downloadPDF, hex, hnet, hst, hct] at ht
        | true =>
          cases hread : env.readFails with
          | true =>
            refine ⟨fun _ => ?_, fun _ => ?_, fun ht => ?_⟩
            · constructor <;> simp [downloadPDF, hex, hnet, hst, hct, hread]
            · simp [downloadPDF, hex, hnet, hst, hct, hread]
            · simp [downloadPDF, hex, hnet, hst, hct, hread] at ht
          | false =>
            cases hlen : (resp.body.length == 0) with
            | true =>
              refine ⟨fun _ => ?_, fun _ => ?_, fun ht => ?_⟩
              · constructor <;> simp [downloadPDF, hex, hnet, hst, hct, hread, hlen]
              · simp [downloadPDF, hex, hnet, hst, hct, hread, hlen]
              · simp [downloadPDF, hex, hnet, hst, hct, hread, hlen] at ht
            | false =>
              cases hcr : env.createFails with
              | true =>
                refine ⟨fun _ => ?_, fun _ => ?_, fun ht => ?_⟩
                · constructor <;> simp [downloadPDF, hex, hnet, hst, hct, hread, hlen, hcr]
                · simp [downloadPDF, hex, hnet, hst, hct, hread, hlen, hcr]
                · simp [downloadPDF, hex, hnet, hst, hct, hread, hlen, hcr] at ht
              | false =>
                cases hwr : env.writeFails with
                | true =>
                  refine ⟨fun hc => ?_, fun _ => ?_, fun ht => ?_⟩
                  · exact absurd hc (by simp [hcr])
                  · simp [downloadPDF, hex, hnet, hst, hct, hread, hlen, hcr, hwr]
                  · simp [downloadPDF, hex, hnet, hst, hct, hread, hlen, hcr, hwr] at ht
                | false =>
                  refine ⟨fun hc => ?_, fun hw => ?_, fun _ => ?_⟩
                  · exact absurd hc (by simp [hcr])
                  · exact absurd hw (by simp [hwr])
                  · refine ⟨resp, rfl, by simpa using hst, hct, ?_, ?_⟩
                    · intro hnil
                      rw [hnil] at hlen
                      simp at hlen
                    · simp [downloadPDF, hex, hnet, hst, hct, hread, hlen, hcr, hwr]

/-- C2 witness: the amended statement applied at an environment whose create
step fails, one whose write step fails, and one that succeeds. -/
theorem claim_C2_no_entry_amended_witness :
    ((downloadPDF cEnvCreateFail [] cUrl outputDirGo).1 = false ∧
      (downloadPDF cEnvCreateFail [] cUrl outputDirGo).2.1 = []) ∧
    (downloadPDF cEnvWriteFail [] cUrl outputDirGo).1 = false ∧
    (∃ resp, cEnvOk.net cUrl = .success resp ∧ resp.statusCode = 200 ∧
      goContains resp.contentType (strToGo "application/pdf") = true ∧
      resp.body ≠ [] ∧
      (downloadPDF cEnvOk [] cUrl outputDirGo).2.1 =
        fsWrite [] (filepathJoin outputDirGo (sanitizeFileNameFromURL cUrl)) resp.body) :=
  ⟨(claim_C2_no_entry_amended cEnvCreateFail [] cUrl outputDirGo).1 rfl,
    (claim_C2_no_entry_amended cEnvWriteFail [] cUrl outputDirGo).2.1 rfl,
    (claim_C2_no_entry_amended cEnvOk [] cUrl outputDirGo).2.2 (by decide)⟩

theorem fetchFold_none (env : RunEnv) (l : List Nat) :
    l.foldl (fetchStep env) none = none := by
  induction l with
  | nil => rfl
  | cons a t ih =>
    rw [List.foldl_cons]
    exact ih

theorem fetchFold_fatal (env : RunEnv) (l : List Nat) :
    ∀ acc : Option GoString, (∃ n ∈ l, env.pageFetch n = none) →
      l.foldl (fetchStep env) acc = none := by
  induction l with
  | nil =>
    intro acc h
    rcases h with ⟨n, hn, -⟩
    exact absurd hn (List.not_mem_nil n)
  | cons a t ih =>
    intro acc h
    rcases h with ⟨n, hn, hf⟩
    rw [List.foldl_cons]
    rcases List.mem_cons.mp hn with rfl | h2
    · have hstep : fetchStep env acc n = none := by
        cases acc with
        | none => rfl
        | some s => simp [fetchStep, hf]
      rw [hstep]
      exact fetchFold_none env t
    · exact ih _ ⟨n, h2, hf⟩

/-- C4: a run that must crawl and whose page-fetch tasks hit a transport
error on some page dies before the download stage: the outcome is fatal, the
output directory is untouched and no download was attempted or launched. -/
theorem claim_C4_fatal_fetch :
    ∀ (env : RunEnv) (fs0 : FileSystem), env.htmlExists = false →
      (∃ n, n ≤ 5000 ∧ env.pageFetch n = none) →
      runMain env fs0 = ⟨true, fs0, [], []⟩ := by
  intro env fs0 hh hex
  rcases hex with ⟨n, hle, hf⟩
  have hfetch : fetchStage env = none := by
    unfold fetchStage
    exact fetchFold_fatal env _ _ ⟨n, List.mem_range.mpr (by omega), hf⟩
  unfold runMain
  rw [hh]
  simp [hfetch]

/-- C4 witness: the fatal outcome at a concrete environment whose every page
fetch errors. -/
theorem claim_C4_fatal_fetch_witness :
    runMain cEnvFatalRun [] = ⟨true, [], [], []⟩ :=
  claim_C4_fatal_fetch cEnvFatalRun [] rfl ⟨0, by omega, rfl⟩

theorem parseHTML_foldl_eq (anchors : List GoString) :
    ∀ acc : List GoString,
      anchors.foldl
        (fun pdfLinks href =>
          match queryUnescapeGo href with
          | .error _ => pdfLinks
          | .ok decodedHref =>
            if goEndsWith (decodedHref.map toLowerByte) (strToGo ".pdf") then pdfLinks ++ [href]
            else pdfLinks)
        acc
        = acc ++ anchors.filter isPdfHref := by
  induction anchors with
  | nil =>
    intro acc
    simp
  | cons a t ih =>
    intro acc
    rw [List.foldl_cons, List.filter_cons]
    have hstep :
        (match queryUnescapeGo a with
          | .error _ => acc
          | .ok decodedHref =>
            if goEndsWith (decodedHref.map toLowerByte) (strToGo ".pdf") then acc ++ [a]
            else acc)
          = if isPdfHref a then acc ++ [a] else acc := by
      unfold isPdfHref
      cases h : queryUnescapeGo a with
      | error e => simp
      | ok d => rfl
    rw [hstep]
    by_cases hp : isPdfHref a = true
    · rw [if_pos hp, if_pos hp, ih]
      simp
    · rw [if_neg hp, if_neg hp, ih]

/-- C7: parseHTML keeps, in document order, exactly the original hrefs whose
percent-decoded lowercased form ends in ".pdf"; on the anchors of the spec's
markup it returns exactly the first and third href. -/
theorem claim_C7_extract_pdf_links :
    (∀ anchors : List GoString, parseHTML anchors = anchors.filter isPdfHref) ∧
    parseHTML [strToGo "/doc/A.PDF", strToGo "/img/b.png", strToGo "c.pdf"]
      = [strToGo "/doc/A.PDF", strToGo "c.pdf"] := by
  constructor
  · intro anchors
    unfold parseHTML
    simpa using parseHTML_foldl_eq anchors []
  · decide

theorem removeDupLoop_eq (l : List GoString) :
    ∀ check acc : List GoString, removeDupLoop l check acc = acc ++ dedupF l check := by
  induction l with
  | nil =>
    intro check acc
    simp [removeDupLoop, dedupF]
  | cons c t ih =>
    intro check acc
    simp only [removeDupLoop, dedupF]
    by_cases h : c ∈ check
    · rw [if_pos h, if_pos h]
      exact ih check acc
    · rw [if_neg h, if_neg h, ih]
      simp

theorem dedupF_congr (l : List GoString) :
    ∀ s1 s2 : List GoString, (∀ c, c ∈ s1 ↔ c ∈ s2) → dedupF l s1 = dedupF l s2 := by
  induction l with
  | nil => intro s1 s2 _; rfl
  | cons c t ih =>
    intro s1 s2 h
    simp only [dedupF]
    by_cases hc : c ∈ s1
    · rw [if_pos hc, if_pos ((h c).mp hc)]
      exact ih s1 s2 h
    · rw [if_neg hc, if_neg (fun hx => hc ((h c).mpr hx))]
      have heq := ih (c :: s1) (c :: s2) (fun x => by
        simp only [List.mem_cons]
        exact or_congr Iff.rfl (h x))
      rw [heq]

theorem dedupF_filter (a : GoString) : ∀ l seen : List GoString,
    dedupF (l.filter (fun b => !(b == a))) seen = dedupF l (a :: seen) := by
  intro l
  induction l with
  | nil => intro seen; rfl
  | cons c t ih =>
    intro seen
    rcases eq_or_ne c a with rfl | hne
    · have hf : (c :: t).filter (fun b => !(b == c)) = t.filter (fun b => !(b == c)) := by
        simp [List.filter_cons]
      have hr : dedupF (c :: t) (c :: seen) = dedupF t (c :: seen) := by
        simp [dedupF]
      rw [hf, hr]
      exact ih seen
    · have hf : (c :: t).filter (fun b => !(b == a)) = c :: t.filter (fun b => !(b == a)) := by
        simp [List.filter_cons, hne]
      rw [hf]
      simp only [dedupF]
      by_cases hc : c ∈ seen
      · rw [if_pos hc, if_pos (List.mem_cons_of_mem a hc)]
        exact ih seen
      · have hc2 : c ∉ a :: seen := by
          intro hmem
          rcases List.mem_cons.mp hmem with h1 | h1
          · exact hne h1
          · exact hc h1
        rw [if_neg hc, if_neg hc2, ih (c :: seen)]
        have := dedupF_congr t (a :: c :: seen) (c :: a :: seen) (fun x => by
          simp only [List.mem_cons]
          tauto)
        rw [this]

theorem dedupF_sublist : ∀ l seen : List GoString, (dedupF l seen).Sublist l := by
  intro l
  induction l with
  | nil => intro seen; simp [dedupF]
  | cons c t ih =>
    intro seen
    simp only [dedupF]
    by_cases h : c ∈ seen
    · rw [if_pos h]
      exact (ih seen).cons c
    · rw [if_neg h]
      exact (ih (c :: seen)).cons₂ c

theorem dedupF_mem : ∀ (l seen : List GoString) (a : GoString),
    a ∈ dedupF l seen ↔ a ∈ l ∧ a ∉ seen := by
  intro l
  induction l with
  | nil => intro seen a; simp [dedupF]
  | cons c t ih =>
    intro seen a
    simp only [dedupF]
    by_cases h : c ∈ seen
    · rw [if_pos h, ih]
      simp only [List.mem_cons]
      constructor
      · rintro ⟨h1, h2⟩
        exact ⟨Or.inr h1, h2⟩
      · rintro ⟨h1 | h1, h2⟩
        · subst h1
          exact absurd h h2
        · exact ⟨h1, h2⟩
    · rw [if_neg h]
      simp only [List.mem_cons, ih, List.mem_cons]
      constructor
      · rintro (rfl | ⟨h1, h2⟩)
        · exact ⟨Or.inl rfl, h⟩
        · exact ⟨Or.inr h1, fun hs => h2 (Or.inr hs)⟩
      · rintro ⟨h1 | h1, h2⟩
        · subst h1
          exact Or.inl rfl
        · rcases eq_or_ne a c with rfl | hac
          · exact Or.inl rfl
          · refine Or.inr ⟨h1, fun hmem => ?_⟩
            rcases hmem with he | hs
            · exact hac he
            · exact h2 hs

theorem dedupF_nodup : ∀ l seen : List GoString, (dedupF l seen).Nodup := by
  intro l
  induction l with
  | nil => intro seen; simp [dedupF]
  | cons c t ih =>
    intro seen
    simp only [dedupF]
    by_cases h : c ∈ seen
    · rw [if_pos h]
      exact ih seen
    · rw [if_neg h]
      refine List.nodup_cons.mpr ⟨?_, ih (c :: seen)⟩
      intro hc
      exact ((dedupF_mem t (c :: seen) c).mp hc).2 (List.mem_cons_self c seen)

theorem dedupF_of_nodup : ∀ l seen : List GoString, l.Nodup → (∀ c ∈ l, c ∉ seen) →
    dedupF l seen = l := by
  intro l
  induction l with
  | nil => intro seen _ _; rfl
  | cons c t ih =>
    intro seen hnd hdis
    simp only [dedupF]
    rw [if_neg (hdis c (List.mem_cons_self c t))]
    congr 1
    refine ih (c :: seen) (List.nodup_cons.mp hnd).2 ?_
    intro x hx hmem
    rcases List.mem_cons.mp hmem with rfl | hs
    · exact (List.nodup_cons.mp hnd).1 hx
    · exact hdis x (List.mem_cons_of_mem c hx) hs

/-- C9: deduplication keeps a subsequence of the input, satisfies the
first-occurrence recursion (the head is kept and later copies of it are
dropped), has no repeated values, keeps exactly the input's values, and is
idempotent. -/
theorem claim_C9_dedup_first_occurrence :
    (∀ x : List GoString, (removeDuplicatesFromSlice x).Sublist x) ∧
    removeDuplicatesFromSlice [] = [] ∧
    (∀ (a : GoString) (l : List GoString),
      removeDuplicatesFromSlice (a :: l)
        = a :: removeDuplicatesFromSlice (l.filter (fun b => !(b == a)))) ∧
    (∀ x : List GoString, (removeDuplicatesFromSlice x).Nodup) ∧
    (∀ (x : List GoString) (a : GoString), a ∈ removeDuplicatesFromSlice x ↔ a ∈ x) ∧
    (∀ x : List GoString,
      removeDuplicatesFromSlice (removeDuplicatesFromSlice x) = removeDuplicatesFromSlice x) := by
  have hrw : ∀ x : List GoString, removeDuplicatesFromSlice x = dedupF x [] := by
    intro x
    unfold removeDuplicatesFromSlice
    simpa using removeDupLoop_eq x [] []
  refine ⟨?_, rfl, ?_, ?_, ?_, ?_⟩
  · intro x
    rw [hrw]
    exact dedupF_sublist x []
  · intro a l
    rw [hrw, hrw]
    simp only [dedupF]
    rw [if_neg (List.not_mem_nil a), dedupF_filter a l []]
  · intro x
    rw [hrw]
    exact dedupF_nodup x []
  · intro x a
    rw [hrw, dedupF_mem]
    simp
  · intro x
    rw [hrw, hrw]
    exact dedupF_of_nodup _ [] (dedupF_nodup x []) (fun c _ => List.not_mem_nil c)

theorem downloadStep_attempted (denv : DownloadEnv)
    (st : FileSystem × List GoString × List GoString) (url : GoString) :
    (downloadStep denv st url).2.2 = st.2.2 ++ [url] := by
  simp only [downloadStep]
  split <;> split <;> rfl

theorem downloadStage_fold_attempted (denv : DownloadEnv) (links : List GoString) :
    ∀ st : FileSystem × List GoString × List GoString,
      (links.foldl (downloadStep denv) st).2.2 = st.2.2 ++ links := by
  induction links with
  | nil =>
    intro st
    simp
  | cons a t ih =>
    intro st
    rw [List.foldl_cons, ih, downloadStep_attempted]
    simp

/-- C10: when the aggregate HTML file already exists, the run iterates the
deduplicated extracted links in reverse, so the links appearing later in the
artifact are attempted first; concretely, with two extracted links the second
one is resolved and launched before the first. -/
theorem claim_C10_reverse_iteration :
    (∀ (env : RunEnv) (fs0 : FileSystem), env.htmlExists = true →
      (runMain env fs0).attempted
        = (removeDuplicatesFromSlice (parseHTML (env.anchors env.localHTML))).reverse) ∧
    runMain cEnvTwoLinks []
      = ⟨false, [],
          [origin ++ strToGo "/docs/b.pdf", origin ++ strToGo "/docs/a.pdf"],
          [strToGo "/docs/b.pdf", strToGo "/docs/a.pdf"]⟩ := by
  constructor
  · intro env fs0 hh
    unfold runMain
    rw [hh]
    simp only [if_true]
    unfold downloadStage
    rw [downloadStage_fold_attempted]
    simp
  · decide

/-- C10 witness: the quantified part at the concrete two-link environment. -/
theorem claim_C10_reverse_iteration_witness :
    (runMain cEnvTwoLinks []).attempted
      = (removeDuplicatesFromSlice
          (parseHTML (cEnvTwoLinks.anchors cEnvTwoLinks.localHTML))).reverse :=
  claim_C10_reverse_iteration.1 cEnvTwoLinks [] rfl
